import Mathlib

/-!
Verification of the VideoSpeak translation core against its specification.

The TypeScript sources are shallowly embedded: texts are modelled as
`List Char`, JavaScript numbers that can take fractional values are modelled
as exact rationals (`ℚ`) with the truncating index conversions of
`String.prototype.substring` made explicit, fallible or effectful code is
modelled with `Except`/`Option` and explicit state passing, and loops whose
termination is in question are given explicit fuel.
-/

namespace VideoSpeak

/-- JavaScript whitespace test (the ASCII part of the regex class `\s`). -/
def jsIsSpace (c : Char) : Bool :=
  c == ' ' || c == '\t' || c == '\n' || c == '\r' || c == '\x0b' || c == '\x0c'

/-- Embedding of `String.prototype.trim`: strip whitespace from both ends. -/
def jsTrim (s : List Char) : List Char :=
  ((s.dropWhile jsIsSpace).reverse.dropWhile jsIsSpace).reverse

/-- Embedding of `String.prototype.substring(a, b)` for integer arguments:
both indices are clamped to `[0, length]` and swapped when out of order. -/
def jsSubstring (s : List Char) (a b : Nat) : List Char :=
  let a' := min a s.length
  let b' := min b s.length
  (s.drop (min a' b')).take (max a' b' - min a' b')

/-- Conversion of a JavaScript number to a string index
(`ToIntegerOrInfinity`, truncation toward zero, followed by the clamp at 0):
on every rational this agrees with `⌊q⌋.toNat`, because truncation and floor
agree for `q ≥ 0` and the clamp sends all negative values to 0. -/
def jsIndex (q : ℚ) : Nat := ⌊q⌋.toNat

/-- Test that `pat` occurs at the head of `s`. -/
def listStartsWith : List Char → List Char → Bool
  | _, [] => true
  | [], _ :: _ => false
  | c :: s, d :: p => c == d && listStartsWith s p

namespace TextChunking

/-- Embedding of `String.prototype.lastIndexOf(delimiter, fromIndex)`:
the largest index `i ≤ min fromIndex length` at which `delimiter` occurs in
`text`, or `none` (JavaScript `-1`) when there is no occurrence. -/
def lastIndexOf (text delimiter : List Char) (fromIndex : Nat) : Option Nat :=
  (List.range (min fromIndex text.length + 1)).reverse.find?
    (fun i => listStartsWith (text.drop i) delimiter)

def paragraphDelimiters : List (List Char) :=
  [['\n', '\n'], ['\r', '\n', '\r', '\n']]

def sentenceDelimiters : List (List Char) :=
  [['.', ' '], ['!', ' '], ['?', ' '], ['.', '\n'], ['!', '\n'], ['?', '\n']]

/-- Embedding of `TextChunking.findLastOccurrence`: fold over the delimiters,
replacing the running result by `position + delimiter.length` whenever the
last occurrence lies strictly past the running result and at or before
`endPosition` (a `none` from `lastIndexOf` is JavaScript's `-1`, which never
exceeds the running result and so leaves it unchanged). -/
def findLastOccurrence (text : List Char) (delimiters : List (List Char))
    (startPosition endPosition : Nat) : Nat :=
  delimiters.foldl
    (fun lastPosition delimiter =>
      match lastIndexOf text delimiter endPosition with
      | some position =>
        if lastPosition < position ∧ position ≤ endPosition then position + delimiter.length
        else lastPosition
      | none => lastPosition)
    startPosition

/-- Body of one iteration of the `while` loop of `splitIntoChunks`: the chunk
that is pushed and the next `currentPosition`.  The JavaScript comparisons
`paragraphBreak > currentPosition + maxChunkSize / 2` and
`sentenceBreak > currentPosition + maxChunkSize / 3` use exact (floating)
division, but for integer break positions `b > c + m / 2` over `ℚ` is
equivalent to `c + m / 2 < b` over `ℕ` with truncating division, which is the
form used here. -/
def splitStep (text : List Char) (maxChunkSize overlapSize currentPosition : Nat) :
    List Char × Nat :=
  let endPosition0 := min (currentPosition + maxChunkSize) text.length
  let paragraphBreak := findLastOccurrence text paragraphDelimiters currentPosition endPosition0
  let endPosition :=
    if currentPosition + maxChunkSize / 2 < paragraphBreak then paragraphBreak
    else
      let sentenceBreak := findLastOccurrence text sentenceDelimiters currentPosition endPosition0
      if currentPosition + maxChunkSize / 3 < sentenceBreak then sentenceBreak
      else endPosition0
  (jsTrim (jsSubstring text currentPosition endPosition),
    max currentPosition (endPosition - overlapSize))

/-- While loop of `splitIntoChunks` with explicit fuel: `none` means the fuel
was exhausted with the loop condition `currentPosition < text.length` still
true. -/
def splitLoop (text : List Char) (maxChunkSize overlapSize : Nat) :
    Nat → Nat → List (List Char) → Option (List (List Char))
  | 0, _, _ => none
  | fuel + 1, currentPosition, chunks =>
    if currentPosition < text.length then
      let st := splitStep text maxChunkSize overlapSize currentPosition
      splitLoop text maxChunkSize overlapSize fuel st.2 (chunks ++ [st.1])
    else some chunks

/-- Embedding of `TextChunking.splitIntoChunks` (JavaScript defaults are
`maxChunkSize = 1500`, `overlapSize = 200`); `!text` is the emptiness test. -/
def splitIntoChunks (text : List Char) (maxChunkSize overlapSize fuel : Nat) :
    Option (List (List Char)) :=
  if text.isEmpty ∨ text.length ≤ maxChunkSize then some [text]
  else splitLoop text maxChunkSize overlapSize fuel 0 []

/-- Embedding of `String.prototype.substring` with JavaScript-number
(rational) arguments, as used by `findOverlapSize` and `mergeChunks`. -/
def jsSubstringQ (s : List Char) (a b : ℚ) : List Char :=
  jsSubstring s (jsIndex a) (jsIndex b)

/-- Embedding of `TextChunking.calculateSimilarity`: position-wise
case-insensitive character matches over the common length, as a fraction. -/
def calculateSimilarity (a b : List Char) : ℚ :=
  if a.isEmpty || b.isEmpty then 0
  else
    let strA := a.map Char.toLower
    let strB := b.map Char.toLower
    let minLength := min strA.length strB.length
    let matchCount := (strA.zip strB).countP (fun p => p.1 == p.2)
    (matchCount : ℚ) / (minLength : ℚ)

/-- Embedding of the `for` loop of `TextChunking.findOverlapSize`.  The loop
variable is an exact rational because `maxOverlap = min(len, len) / 3` need
not be an integer in JavaScript.  The loop is written with structural fuel;
`findOverlapSize` passes fuel 21, which `findOverlapGo_fuel_irrel` below
shows is never exhausted because the initial candidate is at most 200 and
shrinks by 10 every iteration. -/
def findOverlapGo (first second : List Char) (similarityThreshold : ℚ) :
    Nat → ℚ → ℚ
  | 0, _ => 0
  | fuel + 1, overlapSize =>
    if 10 ≤ overlapSize then
      let endOfFirst := jsSubstringQ first ((first.length : ℚ) - overlapSize) (first.length : ℚ)
      let startOfSecond := jsSubstringQ second 0 overlapSize
      if similarityThreshold ≤ calculateSimilarity endOfFirst startOfSecond then overlapSize
      else findOverlapGo first second similarityThreshold fuel (overlapSize - 10)
    else 0

/-- Embedding of `TextChunking.findOverlapSize`: probe candidate overlap
sizes from `min(200, min(first.length, second.length) / 3)` downward in steps
of 10, returning the first (largest) candidate whose similarity meets the
threshold, and 0 if none does. -/
def findOverlapSize (first second : List Char) (similarityThreshold : ℚ) : ℚ :=
  let maxOverlap : ℚ := ((min first.length second.length : Nat) : ℚ) / 3
  findOverlapGo first second similarityThreshold 21 (min 200 maxOverlap)

/-- Embedding of `TextChunking.mergeChunks`: start from the first chunk and
append every later chunk with `findOverlapSize` leading characters dropped
(`substring` truncates the rational overlap size to an integer index). -/
def mergeChunks (chunks : List (List Char)) (overlapThreshold : ℚ) : List Char :=
  if chunks.length ≤ 1 then chunks.headD []
  else
    match chunks with
    | [] => []
    | c :: rest =>
      rest.foldl
        (fun result currentChunk =>
          let overlapSize := findOverlapSize result currentChunk overlapThreshold
          result ++ jsSubstringQ currentChunk overlapSize (currentChunk.length : ℚ))
        c

/-- Match fraction of claim C2's wording for an integral candidate length
`v`: the accumulator's trailing substring of length `v` against the chunk's
leading substring of length `v`, position-wise and case-insensitive, out of
`v` positions. -/
def claimWindowFrac (first second : List Char) (v : Nat) : ℚ :=
  let tail := (first.drop (first.length - v)).map Char.toLower
  let head := (second.take v).map Char.toLower
  (((tail.zip head).countP (fun p => p.1 == p.2) : Nat) : ℚ) / (v : ℚ)

/-- Probe loop of claim C2's wording: integral candidates stepping down by
10 until below 10, returning the largest qualifying candidate or 0 (fuel 21
again always suffices, the candidates being at most 200). -/
def claimOverlapGo (first second : List Char) (t : ℚ) : Nat → Nat → Nat
  | 0, _ => 0
  | fuel + 1, v =>
    if 10 ≤ v then
      if t ≤ claimWindowFrac first second v then v
      else claimOverlapGo first second t fuel (v - 10)
    else 0

/-- Detected overlap of claim C2's wording: candidates run from
`min(200, ⌊shorter/3⌋)` down to 10 in steps of 10. -/
def claimOverlapSize (first second : List Char) (t : ℚ) : Nat :=
  claimOverlapGo first second t 21 (min 200 (min first.length second.length / 3))

/-- Merge as described by claim C2: the first chunk extended by each
subsequent chunk with its detected overlap removed. -/
def claimMergeChunks (chunks : List (List Char)) (t : ℚ) : List Char :=
  match chunks with
  | [] => []
  | c :: rest =>
    rest.foldl (fun result chunk => result ++ chunk.drop (claimOverlapSize result chunk t)) c

/-- Match fraction of the amended claim: for a (possibly fractional)
candidate `v`, the accumulator's trailing substring starts at character
`⌊first.length - v⌋` (one character earlier than a `⌊v⌋`-length tail when
`v` is fractional), the chunk's leading substring has `⌊v⌋` characters, and
the case-insensitive position-wise matches are counted over the first `⌊v⌋`
positions, out of `⌊v⌋`. -/
def amendedWindowFrac (first second : List Char) (v : ℚ) : ℚ :=
  let tail := first.drop (jsIndex ((first.length : ℚ) - v))
  let head := second.take (jsIndex v)
  ((((tail.take (jsIndex v)).zip head).countP
      (fun p => p.1.toLower == p.2.toLower) : Nat) : ℚ) / ((jsIndex v : Nat) : ℚ)

/-- Probe loop of the amended claim: candidates are the exact rationals
`v₀, v₀ - 10, …` while at least 10; a qualifying candidate `v` removes
`⌊v⌋` leading characters of the chunk (fuel 21 always suffices). -/
def amendedOverlapGo (first second : List Char) (t : ℚ) : Nat → ℚ → Nat
  | 0, _ => 0
  | fuel + 1, v =>
    if 10 ≤ v then
      if t ≤ amendedWindowFrac first second v then jsIndex v
      else amendedOverlapGo first second t fuel (v - 10)
    else 0

/-- Detected overlap of the amended claim, started at the exact rational
`min(200, shorter/3)`. -/
def amendedOverlapSize (first second : List Char) (t : ℚ) : Nat :=
  amendedOverlapGo first second t 21 (min 200 (((min first.length second.length : Nat) : ℚ) / 3))

/-- Merge as described by the amended claim. -/
def amendedMergeChunks (chunks : List (List Char)) (t : ℚ) : List Char :=
  match chunks with
  | [] => []
  | c :: rest =>
    rest.foldl (fun result chunk => result ++ chunk.drop (amendedOverlapSize result chunk t)) c

def mergeFirstEx : List Char :=
  List.replicate 21 'a' ++ ['0', '1', '2', '3', '4', '5', '6', '7', '8', '9', 'X']

def mergeSecondEx : List Char :=
  ['0', '1', '2', '3', '4', '5', '6', '7', '8', '9'] ++ List.replicate 22 'b'
example : jsIndex ((32:ℚ) - 32/3) = 21 := by
  unfold jsIndex
  norm_num
  decide
example : jsSubstringQ mergeFirstEx ((32:ℚ) - 32/3) 32
    = ['0', '1', '2', '3', '4', '5', '6', '7', '8', '9', 'X'] := by
  have h1 : jsIndex ((32:ℚ) - 32/3) = 21 := by unfold jsIndex; norm_num; decide
  have h2 : jsIndex (32:ℚ) = 32 := by unfold jsIndex; norm_num; decide
  rw [jsSubstringQ, h1, h2]
  decide
example : calculateSimilarity ['0', '1', '2', '3', '4', '5', '6', '7', '8', '9', 'X']
    ['0', '1', '2', '3', '4', '5', '6', '7', '8', '9'] = 1 := by
  rw [calculateSimilarity]
  norm_num

end TextChunking

namespace Retry

/-- Embedding of the `for` loop of `RetryManager.executeWithRetry`.  The
operation is modelled as a function from the attempt number (starting at 1)
to an `Except` outcome; backoff sleeps do not affect the result and are not
modelled.  `remaining` counts the loop iterations still allowed
(`maxAttempts - attempt + 1` at entry), so the loop guard
`attempt <= maxAttempts` is `remaining > 0`; inside the body the two `break`s
re-raise the error just caught, which is the running `lastError`.  The result
pairs the outcome (`Except.error none` is JavaScript's `throw undefined` of
`throw lastError` when the loop body never ran) with the number of times the
operation was invoked. -/
def retryGo {E A : Type} (op : Nat → Except E A) (retryCondition : E → Bool)
    (maxAttempts : Nat) : Nat → Nat → Except (Option E) A × Nat
  | 0, attempt => (.error none, attempt - 1)
  | remaining + 1, attempt =>
    match op attempt with
    | .ok value => (.ok value, attempt)
    | .error e =>
      if attempt = maxAttempts then (.error (some e), attempt)
      else if retryCondition e = false then (.error (some e), attempt)
      else retryGo op retryCondition maxAttempts remaining (attempt + 1)

/-- Embedding of `RetryManager.executeWithRetry` restricted to what decides
the result: the attempt budget and the retry predicate (delays only pace the
retries). -/
def executeWithRetry {E A : Type} (op : Nat → Except E A)
    (retryCondition : E → Bool) (maxAttempts : Nat) : Except (Option E) A × Nat :=
  retryGo op retryCondition maxAttempts maxAttempts 1

/-- Default `maxAttempts` of `RetryManager.DEFAULT_OPTIONS`. -/
def defaultMaxAttempts : Nat := 3

end Retry

namespace TranslationService

/-- Embedding of `TranslationQualityMetrics` from the shared types. -/
structure TranslationQualityMetrics where
  overallAccuracy : ℚ
  confidenceScore : ℚ
  fluency : ℚ
  adequacy : ℚ
  semanticSimilarity : ℚ
  grammarScore : ℚ

/-- Embedding of `TranslationResult` (provider metadata irrelevant to the
claims is omitted). -/
structure TranslationResult where
  translatedText : List Char
  sourceLanguageCode : List Char
  targetLanguageCode : List Char
  requestId : List Char
  translationAccuracy : ℚ
  confidenceScore : ℚ
  qualityMetrics : TranslationQualityMetrics

/-- Embedding of `TranslationService.isLowAccuracy` (the code of
`EnhancedTranslationService.isLowAccuracy` is identical): strictly below
70. -/
def isLowAccuracy (translationResult : TranslationResult) : Bool :=
  translationResult.translationAccuracy < 70

/-- Embedding of the `TranslationResult` construction in
`TranslationService.translateText`: the result's `translationAccuracy` field
is filled with the quality metrics' `overallAccuracy`. -/
def mkTranslationResult (translatedText sourceLanguageCode targetLanguageCode
    requestId : List Char) (qualityMetrics : TranslationQualityMetrics) :
    TranslationResult :=
  { translatedText := translatedText
    sourceLanguageCode := sourceLanguageCode
    targetLanguageCode := targetLanguageCode
    requestId := requestId
    translationAccuracy := qualityMetrics.overallAccuracy
    confidenceScore := qualityMetrics.confidenceScore
    qualityMetrics := qualityMetrics }

/-- Lower-casing of a JavaScript string (`String.prototype.toLowerCase`,
restricted to the simple case mapping of `Char.toLower`). -/
def jsToLower (s : List Char) : List Char := s.map Char.toLower

/-- Embedding of `String.prototype.split(/\s+/)`: cut at every maximal
whitespace run; a leading run contributes a leading empty piece and a
trailing run a trailing empty piece, as in JavaScript.  The flag records
being inside a run whose piece was already emitted. -/
def jsSplitWsGo : Bool → List Char → List Char → List (List Char)
  | _, current, [] => [current.reverse]
  | inRun, current, c :: rest =>
    if jsIsSpace c then
      if inRun then jsSplitWsGo true current rest
      else current.reverse :: jsSplitWsGo true [] rest
    else jsSplitWsGo false (c :: current) rest

def jsSplitWs (s : List Char) : List (List Char) := jsSplitWsGo false [] s

/-- Embedding of `String.prototype.includes`: contiguous-substring test. -/
def listIncludes : List Char → List Char → Bool
  | [], sub => listStartsWith [] sub
  | c :: rest, sub => listStartsWith (c :: rest) sub || listIncludes rest sub

/-- Embedding of `TranslationService.calculateSemanticSimilarity`: a word
overlap bonus on a base of 75, overridden to 30 when the lower-cased texts
coincide, clamped to `[0, 100]`; both guards and the override compare the
texts exactly as the code does. -/
def calculateSemanticSimilarity (sourceText translatedText : List Char) : ℚ :=
  if sourceText.isEmpty || translatedText.isEmpty then 0
  else
    let sourceWords := jsSplitWs (jsToLower sourceText)
    let translatedWords := jsSplitWs (jsToLower translatedText)
    let commonWords := sourceWords.filter (fun word =>
      translatedWords.any (fun tWord =>
        decide (3 < word.length) && (listIncludes word tWord || listIncludes tWord word)))
    let overlapShare : ℚ :=
      (commonWords.length : ℚ) / ((max sourceWords.length translatedWords.length : Nat) : ℚ)
    let score : ℚ := 75 + overlapShare * 20
    let score : ℚ := if jsToLower sourceText = jsToLower translatedText then 30 else score
    max 0 (min 100 score)

end TranslationService

namespace Router

/-- Embedding of the `TranslationMethod` enum. -/
inductive TranslationMethod
  | llm
  | sarvam
deriving DecidableEq

/-- Outcomes of the two provider families for one request: `llm` is the
outcome of `llmAdapter.translateText` (reachable only with an adapter
configured) and `sarvam` is the overall outcome of `translateWithSarvam`,
whose internal retry loop is abstracted into its final outcome.  Modelling
the network calls by outcome oracles is the shallow embedding of
`EnhancedTranslationService`'s control flow. -/
structure ProviderOutcomes (R E : Type) where
  llm : Except E R
  sarvam : Except E R

/-- Configuration of `EnhancedTranslationService`: whether an
`LLMTranslationAdapter` was initialized in the constructor, and the default
method. -/
structure RouterConfig where
  hasLLMAdapter : Bool
  defaultMethod : TranslationMethod

/-- Errors `translateText` can raise beyond provider errors. -/
inductive RouterError (E : Type)
  | emptyInput
  | llmNotInitialized
  | provider (e : E)
deriving DecidableEq

/-- Embedding of `EnhancedTranslationService.translateWithLLM`: raises the
initialization error without an adapter, otherwise the adapter outcome. -/
def translateWithLLM {R E : Type} (cfg : RouterConfig) (out : ProviderOutcomes R E) :
    Except (RouterError E) R :=
  if cfg.hasLLMAdapter = false then .error .llmNotInitialized
  else
    match out.llm with
    | .ok r => .ok r
    | .error e => .error (.provider e)

/-- Embedding of `EnhancedTranslationService.translateWithSarvam`,
abstracted to its overall outcome. -/
def translateWithSarvam {R E : Type} (out : ProviderOutcomes R E) :
    Except (RouterError E) R :=
  match out.sarvam with
  | .ok r => .ok r
  | .error e => .error (.provider e)

/-- Embedding of `EnhancedTranslationService.translateText`: the emptiness
guard, the preferred-method test `method === LLM && this.llmAdapter`, the
`try` call, and the `catch` block that re-tests the same condition to pick
the fallback family, falls back to LLM only when an adapter exists, and
otherwise rethrows.  The second component traces the provider families
called, in order. -/
def translateText {R E : Type} (cfg : RouterConfig) (out : ProviderOutcomes R E)
    (text : List Char) (optMethod : Option TranslationMethod) :
    Except (RouterError E) R × List TranslationMethod :=
  if (jsTrim text).isEmpty then (.error .emptyInput, [])
  else
    let method := optMethod.getD cfg.defaultMethod
    let preferLLM : Bool := method == TranslationMethod.llm && cfg.hasLLMAdapter
    let firstFam := if preferLLM then TranslationMethod.llm else TranslationMethod.sarvam
    match (if preferLLM then translateWithLLM cfg out else translateWithSarvam out) with
    | .ok r => (.ok r, [firstFam])
    | .error e =>
      if preferLLM then (translateWithSarvam out, [firstFam, .sarvam])
      else if cfg.hasLLMAdapter then (translateWithLLM cfg out, [firstFam, .llm])
      else (.error e, [firstFam])

end Router

namespace JobManager

/-- Embedding of the `JobStatus` enum. -/
inductive JobStatus
  | pending
  | processing
  | completed
  | failed
deriving DecidableEq

/-- Embedding of the `ProcessingStage` enum. -/
inductive ProcessingStage
  | validatingUrl
  | extractingAudio
  | transcribing
  | translating
  | completed
deriving DecidableEq

/-- Embedding of `ProcessingJob` (dates are modelled as naturals; the
optional `results` payload plays no role in the claims and is omitted). -/
structure ProcessingJob where
  id : String
  videoUrl : String
  targetLanguage : String
  status : JobStatus
  progress : Nat
  currentStage : ProcessingStage
  error : Option String
  createdAt : Nat
  updatedAt : Nat
deriving DecidableEq

/-- Embedding of `Partial<ProcessingJob>` as used by `createJob` and
`updateJob`: `none` is an absent property. -/
structure JobPatch where
  id : Option String := none
  videoUrl : Option String := none
  targetLanguage : Option String := none
  status : Option JobStatus := none
  progress : Option Nat := none
  currentStage : Option ProcessingStage := none
  error : Option String := none
  createdAt : Option Nat := none
  updatedAt : Option Nat := none
deriving DecidableEq

/-- Spread `{ ...job, ...updates, updatedAt: new Date() }` of `updateJob`:
present properties of the patch override the job, and `updatedAt` is always
stamped with the current time. -/
def applyPatch (job : ProcessingJob) (p : JobPatch) (now : Nat) : ProcessingJob :=
  { id := p.id.getD job.id
    videoUrl := p.videoUrl.getD job.videoUrl
    targetLanguage := p.targetLanguage.getD job.targetLanguage
    status := p.status.getD job.status
    progress := p.progress.getD job.progress
    currentStage := p.currentStage.getD job.currentStage
    error := match p.error with
      | some e => some e
      | none => job.error
    createdAt := p.createdAt.getD job.createdAt
    updatedAt := now }

/-- JavaScript `Map.set`: replace the first entry with the key in insertion
order, else append. -/
def mapSet : List (String × ProcessingJob) → String → ProcessingJob →
    List (String × ProcessingJob)
  | [], id, job => [(id, job)]
  | (k, v) :: rest, id, job =>
    if k == id then (id, job) :: rest else (k, v) :: mapSet rest id job

/-- JavaScript `Map.get`. -/
def mapGet (m : List (String × ProcessingJob)) (id : String) : Option ProcessingJob :=
  (m.find? (fun kv => kv.1 == id)).map Prod.snd

/-- State of a `JobManager`: the insertion-ordered job map and the id
queue. -/
structure JMState where
  jobs : List (String × ProcessingJob)
  processingQueue : List String
deriving DecidableEq

def initState : JMState := ⟨[], []⟩

/-- Embedding of `JobManager.maxConcurrentJobs`. -/
def maxConcurrentJobs : Nat := 5

/-- Embedding of `JobManager.createJob`: the object literal lists defaults
(`status: PENDING`, `progress: 0`, `currentStage: VALIDATING_URL`, fresh
dates, generated id) and then spreads `...jobData` over them, so every
property present in `jobData` — including `status` — wins; the job is stored
and its id pushed on the queue. -/
def createJob (st : JMState) (jobData : JobPatch) (genId : String) (now : Nat) :
    ProcessingJob × JMState :=
  let job : ProcessingJob :=
    { id := jobData.id.getD genId
      videoUrl := jobData.videoUrl.getD ""
      targetLanguage := jobData.targetLanguage.getD ""
      status := jobData.status.getD .pending
      progress := jobData.progress.getD 0
      currentStage := jobData.currentStage.getD .validatingUrl
      error := jobData.error
      createdAt := jobData.createdAt.getD now
      updatedAt := jobData.updatedAt.getD now }
  (job, { jobs := mapSet st.jobs job.id job
          processingQueue := st.processingQueue ++ [job.id] })

/-- Embedding of `JobManager.updateJob`. -/
def updateJob (st : JMState) (jobId : String) (updates : JobPatch) (now : Nat) :
    Option ProcessingJob × JMState :=
  match mapGet st.jobs jobId with
  | none => (none, st)
  | some job =>
    let updatedJob := applyPatch job updates now
    (some updatedJob, { st with jobs := mapSet st.jobs jobId updatedJob })

/-- Embedding of `JobManager.cancelJob`: Pending or Processing jobs are
marked Failed with the cancellation message and their id is spliced out of
the queue (first occurrence); anything else returns `false` untouched. -/
def cancelJob (st : JMState) (jobId : String) (now : Nat) : Bool × JMState :=
  match mapGet st.jobs jobId with
  | none => (false, st)
  | some job =>
    if job.status = .pending ∨ job.status = .processing then
      let st' := (updateJob st jobId
        { status := some .failed, error := some "Job cancelled by user" } now).2
      (true, { st' with processingQueue := st'.processingQueue.erase jobId })
    else (false, st)

/-- Embedding of `JobManager.processNextJob`: bail out when the Processing
count has reached the gate or nothing is queued; otherwise shift the queue
head (`if (!jobId) return` is the falsy test on an empty id), drop it if its
job is missing or not Pending, and otherwise mark it Processing. -/
def processNextJob (st : JMState) (now : Nat) : JMState :=
  let activeJobs := (st.jobs.filter (fun kv => kv.2.status == JobStatus.processing)).length
  if maxConcurrentJobs ≤ activeJobs ∨ st.processingQueue = [] then st
  else
    match st.processingQueue with
    | [] => st
    | jobId :: restQueue =>
      let st' : JMState := { st with processingQueue := restQueue }
      if jobId = "" then st'
      else
        match mapGet st'.jobs jobId with
        | none => st'
        | some job =>
          if job.status ≠ .pending then st'
          else
            (updateJob st' jobId
              { status := some .processing, currentStage := some .validatingUrl,
                progress := some 5 } now).2

/-- Embedding of `JobManager.cleanupOldJobs`: delete Completed/Failed jobs
last updated before the one-hour cutoff. -/
def cleanupOldJobs (st : JMState) (now : Nat) : JMState :=
  { st with jobs := st.jobs.filter (fun kv =>
      !((kv.2.status == JobStatus.completed || kv.2.status == JobStatus.failed)
        && decide (kv.2.updatedAt < now - 3600000))) }

/-- Embedding of `JobManager.shutdown`: force every Pending/Processing job
to Failed with the shutdown message. -/
def shutdown (st : JMState) (now : Nat) : JMState :=
  { st with jobs := st.jobs.map (fun kv =>
      if kv.2.status = .pending ∨ kv.2.status = .processing then
        (kv.1,
          { kv.2 with
              status := .failed
              error := some "Server shutdown"
              updatedAt := now })
      else kv) }

/-- One observable `JobManager` operation, with its external inputs
(patches, generated ids, clock readings). -/
inductive JMOp
  | create (jobData : JobPatch) (genId : String) (now : Nat)
  | processNext (now : Nat)
  | cancel (jobId : String) (now : Nat)
  | cleanup (now : Nat)
  | shutdown (now : Nat)

def applyOp (st : JMState) : JMOp → JMState
  | .create jobData genId now => (createJob st jobData genId now).2
  | .processNext now => processNextJob st now
  | .cancel jobId now => (cancelJob st jobId now).2
  | .cleanup now => cleanupOldJobs st now
  | .shutdown now => shutdown st now

def runOps (st : JMState) (ops : List JMOp) : JMState := ops.foldl applyOp st

/-- Number of jobs currently in Processing status. -/
def processingCount (st : JMState) : Nat :=
  (st.jobs.filter (fun kv => kv.2.status == JobStatus.processing)).length

/-- Status of a job in the registry, if present. -/
def statusOf (st : JMState) (jobId : String) : Option JobStatus :=
  (mapGet st.jobs jobId).map ProcessingJob.status

/-- Operations of claim C7 amended: `createJob` inputs must not themselves
carry a Processing status (the `...jobData` spread would override the
Pending default); any other status — absent, Pending, Completed or
Failed — is allowed, as are all other operations. -/
def benignOp : JMOp → Prop
  | .create jobData _ _ => jobData.status ≠ some .processing
  | _ => True

/-- Counterexample inputs to claim C7 as stated: six `createJob` calls whose
`jobData` carries `status: PROCESSING`, which the `...jobData` spread lets
override the `PENDING` default. -/
def gateBreakingOps : List JMOp :=
  [.create { status := some .processing } "a" 0,
   .create { status := some .processing } "b" 0,
   .create { status := some .processing } "c" 0,
   .create { status := some .processing } "d" 0,
   .create { status := some .processing } "e" 0,
   .create { status := some .processing } "f" 0]

/-- Concrete Pending job for the witnesses. -/
def witnessPendingJob : ProcessingJob :=
  { id := "p"
    videoUrl := "u"
    targetLanguage := "hi-IN"
    status := .pending
    progress := 0
    currentStage := .validatingUrl
    error := none
    createdAt := 0
    updatedAt := 0 }

/-- Concrete Completed job for the witnesses. -/
def witnessCompletedJob : ProcessingJob :=
  { id := "c"
    videoUrl := "u"
    targetLanguage := "hi-IN"
    status := .completed
    progress := 100
    currentStage := .completed
    error := none
    createdAt := 0
    updatedAt := 0 }

/-- Concrete registry for the witnesses: one queued Pending job and one
Completed job. -/
def witnessState : JMState :=
  ⟨[("p", witnessPendingJob), ("c", witnessCompletedJob)], ["p"]⟩

/-- Benign operations for the C7 witness. -/
def benignWitnessOps : List JMOp :=
  [.create {} "a" 0, .create { status := some .pending } "b" 1, .processNext 2]

end JobManager

theorem listStartsWith_length {s p : List Char} (h : listStartsWith s p = true) :
    p.length ≤ s.length := by
  induction p generalizing s with
  | nil => simp
  | cons d p ih =>
    cases s with
    | nil => simp [listStartsWith] at h
    | cons c s =>
      simp only [listStartsWith, Bool.and_eq_true] at h
      simpa using ih h.2

namespace TextChunking

theorem lastIndexOf_bound {text delimiter : List Char} {fromIndex i : Nat}
    (h : lastIndexOf text delimiter fromIndex = some i) :
    i ≤ text.length ∧ i + delimiter.length ≤ text.length := by
  have hmem : i ∈ (List.range (min fromIndex text.length + 1)).reverse :=
    List.mem_of_find?_eq_some h
  have hi : i ≤ min fromIndex text.length := by
    have := List.mem_range.mp (List.mem_reverse.mp hmem)
    omega
  have hilen : i ≤ text.length := le_trans hi (min_le_right _ _)
  have hpred := List.find?_some h
  have hlen : delimiter.length ≤ (text.drop i).length := listStartsWith_length hpred
  rw [List.length_drop] at hlen
  exact ⟨hilen, by omega⟩

theorem findLastOccurrence_le (text : List Char) (delimiters : List (List Char))
    {startPosition : Nat} (endPosition : Nat) (h : startPosition ≤ text.length) :
    findLastOccurrence text delimiters startPosition endPosition ≤ text.length := by
  unfold findLastOccurrence
  induction delimiters generalizing startPosition with
  | nil => simpa using h
  | cons d ds ih =>
    simp only [List.foldl_cons]
    apply ih
    cases hfind : lastIndexOf text d endPosition with
    | none => simpa using h
    | some position =>
      simp only
      split
      · exact (lastIndexOf_bound hfind).2
      · exact h

theorem splitStep_snd_lt (text : List Char) (maxChunkSize overlapSize currentPosition : Nat)
    (hov : 1 ≤ overlapSize) (hcur : currentPosition < text.length) :
    (splitStep text maxChunkSize overlapSize currentPosition).2 < text.length := by
  unfold splitStep
  simp only
  apply max_lt hcur
  have hstart : currentPosition ≤ text.length := le_of_lt hcur
  have hend : ∀ e : Nat, e ≤ text.length → e - overlapSize < text.length := by
    intro e he
    omega
  split
  · exact hend _ (findLastOccurrence_le text paragraphDelimiters _ hstart)
  · split
    · exact hend _ (findLastOccurrence_le text sentenceDelimiters _ hstart)
    · exact hend _ (min_le_right _ _)

theorem splitLoop_eq_none (text : List Char) (maxChunkSize overlapSize : Nat)
    (hov : 1 ≤ overlapSize) :
    ∀ fuel currentPosition chunks, currentPosition < text.length →
      splitLoop text maxChunkSize overlapSize fuel currentPosition chunks = none := by
  intro fuel
  induction fuel with
  | zero => intro c ch _; rfl
  | succ fuel ih =>
    intro currentPosition chunks hcur
    rw [splitLoop, if_pos hcur]
    exact ih _ _ (splitStep_snd_lt text maxChunkSize overlapSize currentPosition hov hcur)

/-- Claim C1 (refuted by the code, recorded as a code bug): `splitIntoChunks`
does not terminate on any input longer than `maxChunkSize` when
`overlapSize ≥ 1` — once `endPosition` reaches `text.length`, the update
`currentPosition = max(currentPosition, endPosition - overlapSize)` stalls at
`text.length - overlapSize < text.length`, so the `while` loop never exits.
In particular no amount of fuel makes a 5,000-character input (with the
defaults `maxChunkSize = 1500`, `overlapSize = 200`) yield any result, let
alone at least 4 chunks. -/
theorem splitIntoChunks_diverges (text : List Char) (maxChunkSize overlapSize fuel : Nat)
    (hlong : maxChunkSize < text.length) (hov : 1 ≤ overlapSize) :
    splitIntoChunks text maxChunkSize overlapSize fuel = none := by
  have hlen : 0 < text.length := lt_of_le_of_lt (Nat.zero_le _) hlong
  rw [splitIntoChunks, if_neg]
  · exact splitLoop_eq_none text maxChunkSize overlapSize hov fuel 0 [] hlen
  · rintro (h | h)
    · rw [List.isEmpty_iff] at h
      simp [h] at hlen
    · omega

/-- Witness for `splitIntoChunks_diverges` at the failing input of claim C1:
a 5,000-character text, `maxChunkSize = 1500`, `overlapSize = 200`. -/
theorem splitIntoChunks_diverges_witness :
    1500 < (List.replicate 5000 'a').length ∧ (1 : Nat) ≤ 200 ∧
      splitIntoChunks (List.replicate 5000 'a') 1500 200 16 = none :=
  ⟨by rw [List.length_replicate]; norm_num, by norm_num,
    splitIntoChunks_diverges (List.replicate 5000 'a') 1500 200 16
      (by rw [List.length_replicate]; norm_num) (by norm_num)⟩

/-- Claim C10 (confirmed): for every text whose length is at most
`maxChunkSize`, `splitIntoChunks` returns exactly one chunk, equal to the
input text. -/
theorem splitIntoChunks_small (text : List Char) (maxChunkSize overlapSize fuel : Nat)
    (h : text.length ≤ maxChunkSize) :
    splitIntoChunks text maxChunkSize overlapSize fuel = some [text] := by
  rw [splitIntoChunks, if_pos (Or.inr h)]

/-- Witness for `splitIntoChunks_small` at a concrete two-character input. -/
theorem splitIntoChunks_small_witness :
    (('h' :: ['i']) : List Char).length ≤ 1500 ∧
      splitIntoChunks ('h' :: ['i']) 1500 200 0 = some [('h' :: ['i'])] :=
  ⟨by decide, splitIntoChunks_small ('h' :: ['i']) 1500 200 0 (by decide)⟩

theorem isEmpty_false_of_length_pos {l : List Char} (h : 0 < l.length) :
    l.isEmpty = false := by
  cases l with
  | nil => simp at h
  | cons a t => rfl

theorem zip_take_left {α β : Type} :
    ∀ (l1 : List α) (l2 : List β) (n : Nat), l2.length ≤ n →
      l1.zip l2 = (l1.take n).zip l2 := by
  intro l1
  induction l1 with
  | nil => intro l2 n _; simp
  | cons a l1 ih =>
    intro l2 n hn
    cases l2 with
    | nil => simp
    | cons b l2 =>
      cases n with
      | zero => simp at hn
      | succ n =>
        simp only [List.take_succ_cons, List.zip_cons_cons]
        rw [ih l2 n (by simpa using hn)]

theorem jsIndex_natCast (n : Nat) : jsIndex (n : ℚ) = n := by
  simp [jsIndex]

theorem jsIndex_zero : jsIndex 0 = 0 := by
  simp [jsIndex]

theorem jsIndex_le_of_le {v : ℚ} {n : Nat} (h : v ≤ (n : ℚ)) : jsIndex v ≤ n := by
  have hf : ⌊v⌋ ≤ (n : ℤ) := by
    calc ⌊v⌋ ≤ ⌊(n : ℚ)⌋ := Int.floor_le_floor h
    _ = (n : ℤ) := Int.floor_natCast n
  unfold jsIndex
  omega

theorem le_jsIndex_of_le {n : Nat} {v : ℚ} (h : (n : ℚ) ≤ v) : n ≤ jsIndex v := by
  have hf : (n : ℤ) ≤ ⌊v⌋ := Int.le_floor.mpr (by exact_mod_cast h)
  unfold jsIndex
  omega

theorem jsSubstring_to_end (s : List Char) (a : Nat) :
    jsSubstring s a s.length = s.drop a := by
  unfold jsSubstring
  have h1 : min a s.length ≤ s.length := min_le_right _ _
  simp only [min_self]
  rw [min_eq_left h1, max_eq_right h1]
  rcases le_total a s.length with hle | hge
  · rw [min_eq_left hle]
    exact List.take_of_length_le (by simp)
  · rw [min_eq_right hge]
    rw [List.drop_eq_nil_of_le hge, List.drop_eq_nil_of_le (le_refl _)]
    simp

theorem jsSubstring_zero (s : List Char) (b : Nat) :
    jsSubstring s 0 b = s.take b := by
  unfold jsSubstring
  simp only [Nat.zero_min, Nat.min_self, Nat.zero_le, min_eq_left, max_eq_right,
    List.drop_zero, Nat.sub_zero]
  rcases le_total b s.length with hle | hge
  · rw [min_eq_left hle]
  · rw [min_eq_right hge, List.take_length, List.take_of_length_le hge]

theorem jsSubstringQ_drop (s : List Char) (v : ℚ) :
    jsSubstringQ s v (s.length : ℚ) = s.drop (jsIndex v) := by
  unfold jsSubstringQ
  rw [jsIndex_natCast, jsSubstring_to_end]

theorem jsSubstringQ_take (s : List Char) (v : ℚ) :
    jsSubstringQ s 0 v = s.take (jsIndex v) := by
  unfold jsSubstringQ
  rw [jsIndex_zero, jsSubstring_zero]

/-- Key window identity behind the amended claim C2: for a candidate
`10 ≤ v` bounded by both lengths, the similarity the code computes between
`first.substring(first.length - v)` and `second.substring(0, v)` equals the
amended claim's match fraction over the first `⌊v⌋` positions. -/
theorem calculateSimilarity_window (first second : List Char) (v : ℚ)
    (h10 : 10 ≤ v) (h1 : v ≤ (first.length : ℚ)) (h2 : v ≤ (second.length : ℚ)) :
    calculateSimilarity (first.drop (jsIndex ((first.length : ℚ) - v)))
      (second.take (jsIndex v)) = amendedWindowFrac first second v := by
  have hj10 : 10 ≤ jsIndex v := le_jsIndex_of_le (by exact_mod_cast h10)
  have hjL2 : jsIndex v ≤ second.length := jsIndex_le_of_le h2
  have hkj : jsIndex ((first.length : ℚ) - v) + jsIndex v ≤ first.length := by
    have hv0 : (0 : ℚ) ≤ v := le_trans (by norm_num) h10
    have hk : (jsIndex ((first.length : ℚ) - v) : ℚ) ≤ (first.length : ℚ) - v := by
      have hnn : (0 : ℚ) ≤ (first.length : ℚ) - v := by linarith
      have hfnn : 0 ≤ ⌊(first.length : ℚ) - v⌋ := Int.floor_nonneg.mpr hnn
      calc (jsIndex ((first.length : ℚ) - v) : ℚ)
          = ((⌊(first.length : ℚ) - v⌋ : ℤ) : ℚ) := by
            unfold jsIndex
            rw [← Int.toNat_of_nonneg hfnn]
            norm_cast
        _ ≤ (first.length : ℚ) - v := Int.floor_le _
    have hjv : (jsIndex v : ℚ) ≤ v := by
      have hfnn : 0 ≤ ⌊v⌋ := Int.floor_nonneg.mpr hv0
      calc (jsIndex v : ℚ) = ((⌊v⌋ : ℤ) : ℚ) := by
            unfold jsIndex
            rw [← Int.toNat_of_nonneg hfnn]
            norm_cast
        _ ≤ v := Int.floor_le v
    have : ((jsIndex ((first.length : ℚ) - v) + jsIndex v : Nat) : ℚ) ≤ (first.length : ℚ) := by
      push_cast
      linarith
    exact_mod_cast this
  set k := jsIndex ((first.length : ℚ) - v) with hkdef
  set j := jsIndex v with hjdef
  have hlen_tail : (first.drop k).length = first.length - k := List.length_drop _ _
  have hlen_head : (second.take j).length = j := by
    rw [List.length_take]
    omega
  have htail_pos : 0 < (first.drop k).length := by omega
  have hhead_pos : 0 < (second.take j).length := by omega
  unfold calculateSimilarity amendedWindowFrac
  rw [isEmpty_false_of_length_pos htail_pos, isEmpty_false_of_length_pos hhead_pos]
  simp only [Bool.or_self, Bool.false_eq_true, if_false, List.length_map,
    List.zip_map, List.countP_map]
  rw [hlen_tail, hlen_head]
  rw [min_eq_right (by omega : j ≤ first.length - k)]
  rw [zip_take_left (first.drop k) (second.take j) j (le_of_eq hlen_head)]
  have hcp : ∀ l : List (Char × Char),
      List.countP ((fun p : Char × Char => p.1 == p.2) ∘ Prod.map Char.toLower Char.toLower) l
        = List.countP (fun p : Char × Char => p.1.toLower == p.2.toLower) l := by
    intro l
    apply List.countP_congr
    rintro ⟨x, y⟩ _
    simp [Function.comp, Prod.map]
  rw [hcp]

/-- Fuel 21 is never exhausted by `findOverlapGo`: for any two fuel amounts
strictly dominating one tenth of the candidate, the results agree.  At the
only call site the candidate is at most `200 < 10 * 21`. -/
theorem findOverlapGo_fuel_irrel (first second : List Char) (t : ℚ) :
    ∀ (f1 f2 : Nat) (v : ℚ), v < 10 * (f1 : ℚ) → v < 10 * (f2 : ℚ) →
      findOverlapGo first second t f1 v = findOverlapGo first second t f2 v := by
  intro f1
  induction f1 with
  | zero =>
    intro f2 v h1 h2
    have hneg : ¬ (10 ≤ v) := by push_cast at h1; intro hc; linarith
    cases f2 with
    | zero => rfl
    | succ m => rw [findOverlapGo, findOverlapGo, if_neg hneg]
  | succ k ih =>
    intro f2 v h1 h2
    cases f2 with
    | zero =>
      have hneg : ¬ (10 ≤ v) := by push_cast at h2; intro hc; linarith
      rw [findOverlapGo, findOverlapGo, if_neg hneg]
    | succ m =>
      rw [findOverlapGo, findOverlapGo]
      by_cases hge : 10 ≤ v
      · rw [if_pos hge, if_pos hge]
        simp only
        split
        · rfl
        · apply ih
          · push_cast at h1 ⊢; linarith
          · push_cast at h2 ⊢; linarith
      · rw [if_neg hge, if_neg hge]

/-- Loop-level form of the amended claim C2: truncating the rational result
of `findOverlapSize`'s probe loop to an integer gives exactly the amended
claim's probe, whenever the candidate is bounded by both lengths. -/
theorem overlapGo_eq (first second : List Char) (t : ℚ) :
    ∀ (fuel : Nat) (v : ℚ), v ≤ (first.length : ℚ) → v ≤ (second.length : ℚ) →
      jsIndex (findOverlapGo first second t fuel v) =
        amendedOverlapGo first second t fuel v := by
  intro fuel
  induction fuel with
  | zero =>
    intro v h1 h2
    rw [findOverlapGo, amendedOverlapGo, jsIndex_zero]
  | succ n ih =>
    intro v h1 h2
    rw [findOverlapGo, amendedOverlapGo]
    by_cases hge : 10 ≤ v
    · rw [if_pos hge, if_pos hge]
      simp only [jsSubstringQ_drop, jsSubstringQ_take]
      rw [calculateSimilarity_window first second v hge h1 h2]
      rw [apply_ite jsIndex]
      split
      · rfl
      · exact ih (v - 10) (by linarith) (by linarith)
    · rw [if_neg hge, if_neg hge, jsIndex_zero]

/-- Top-level overlap form of the amended claim C2. -/
theorem findOverlapSize_eq_amended (first second : List Char) (t : ℚ) :
    jsIndex (findOverlapSize first second t) = amendedOverlapSize first second t := by
  unfold findOverlapSize amendedOverlapSize
  have hm3 : ((min first.length second.length : Nat) : ℚ) / 3 ≤
      ((min first.length second.length : Nat) : ℚ) :=
    div_le_self (by positivity) (by norm_num)
  have hv1 : min 200 (((min first.length second.length : Nat) : ℚ) / 3) ≤ (first.length : ℚ) := by
    refine le_trans (min_le_right _ _) (le_trans hm3 ?_)
    exact_mod_cast Nat.cast_le.mpr (min_le_left _ _)
  have hv2 : min 200 (((min first.length second.length : Nat) : ℚ) / 3) ≤ (second.length : ℚ) := by
    refine le_trans (min_le_right _ _) (le_trans hm3 ?_)
    exact_mod_cast Nat.cast_le.mpr (min_le_right _ _)
  exact overlapGo_eq first second t 21 _ hv1 hv2

theorem foldl_congr_chunks (f g : List Char → List Char → List Char)
    (H : ∀ a b, f a b = g a b) :
    ∀ (l : List (List Char)) (a : List Char), l.foldl f a = l.foldl g a := by
  intro l
  induction l with
  | nil => intro a; rfl
  | cons b l ih =>
    intro a
    simp only [List.foldl_cons, H a b, ih]

theorem mergeStep_eq (t : ℚ) (result currentChunk : List Char) :
    result ++ jsSubstringQ currentChunk (findOverlapSize result currentChunk t)
        ((currentChunk.length : ℚ))
      = result ++ currentChunk.drop (amendedOverlapSize result currentChunk t) := by
  rw [jsSubstringQ_drop, findOverlapSize_eq_amended]

/-- Claim C2 (corrected): `mergeChunks` returns the first chunk extended by
each subsequent chunk with its detected overlap removed, where the probe is
as the claim describes it except for the treatment of fractional candidate
lengths: candidates are the exact rationals `min(200, shorter/3), … - 10, …`
down to 10; a candidate `v` compares the accumulator's trailing substring
starting at character `⌊acc.length - v⌋` — one character longer than `⌊v⌋`
when `v` is fractional — against the chunk's leading `⌊v⌋` characters over
the first `⌊v⌋` positions, and a qualifying candidate removes `⌊v⌋` leading
characters of the chunk. -/
theorem mergeChunks_eq_amended (chunks : List (List Char)) (t : ℚ) :
    mergeChunks chunks t = amendedMergeChunks chunks t := by
  cases chunks with
  | nil => rfl
  | cons c rest =>
    cases rest with
    | nil => rfl
    | cons c2 rest2 =>
      rw [mergeChunks, amendedMergeChunks, if_neg (by simp)]
      exact foldl_congr_chunks _ _ (fun a b => mergeStep_eq t a b) (c2 :: rest2) c

theorem findOverlapSize_mergeEx : findOverlapSize mergeFirstEx mergeSecondEx (1/2) = 32/3 := by
  have hf : mergeFirstEx.length = 32 := by decide
  have hs : mergeSecondEx.length = 32 := by decide
  have hsim : calculateSimilarity ['0', '1', '2', '3', '4', '5', '6', '7', '8', '9', 'X']
      ['0', '1', '2', '3', '4', '5', '6', '7', '8', '9'] = 1 := by
    rw [calculateSimilarity]; norm_num
  have h1 : jsSubstringQ mergeFirstEx ((32:ℚ) - 32/3) (32:ℚ)
      = ['0', '1', '2', '3', '4', '5', '6', '7', '8', '9', 'X'] := by
    have ha : jsIndex ((32:ℚ) - 32/3) = 21 := by unfold jsIndex; norm_num; decide
    have hb : jsIndex (32:ℚ) = 32 := by unfold jsIndex; norm_num; decide
    rw [jsSubstringQ, ha, hb]
    decide
  have h2 : jsSubstringQ mergeSecondEx 0 (32/3)
      = ['0', '1', '2', '3', '4', '5', '6', '7', '8', '9'] := by
    have ha : jsIndex ((32:ℚ)/3) = 10 := by unfold jsIndex; norm_num; decide
    rw [jsSubstringQ, jsIndex_zero, ha]
    decide
  rw [findOverlapSize, findOverlapGo]
  simp only [hf, hs, Nat.cast_ofNat]
  rw [show min (32:Nat) 32 = 32 from rfl]
  rw [show min (200:ℚ) (((32:Nat):ℚ)/3) = 32/3 by push_cast; norm_num]
  rw [if_pos (by norm_num : (10:ℚ) ≤ 32/3)]
  simp only [hf, hs, Nat.cast_ofNat, h1, h2, hsim]
  norm_num

/-- Counterexample to claim C2 as stated: with an accumulator and chunk of
32 characters each, the shorter length is not a multiple of 3, the probe's
only candidate is the fractional `32/3`, and the code's comparison window in
the accumulator starts one character earlier than an integral-length tail
would, so the code detects a 10-character overlap while the claim's
description (integral candidates with equal-length windows) detects none and
keeps the whole chunk. -/
theorem mergeChunks_claim_counterexample :
    mergeChunks [mergeFirstEx, mergeSecondEx] (1/2)
      ≠ claimMergeChunks [mergeFirstEx, mergeSecondEx] (1/2) := by
  have hs : mergeSecondEx.length = 32 := by decide
  have hov : findOverlapSize mergeFirstEx mergeSecondEx (1/2) = 32/3 := by
    exact findOverlapSize_mergeEx
  have hdrop : jsSubstringQ mergeSecondEx (32/3) ((32:Nat) : ℚ) = List.replicate 22 'b' := by
    have ha : jsIndex ((32:ℚ)/3) = 10 := by unfold jsIndex; norm_num; decide
    have hb : jsIndex (((32:Nat)) : ℚ) = 32 := by unfold jsIndex; norm_num; decide
    rw [jsSubstringQ, ha, hb]
    decide
  have hclaim : claimOverlapSize mergeFirstEx mergeSecondEx (1/2) = 0 := by
    rw [claimOverlapSize,
      show min 200 (min mergeFirstEx.length mergeSecondEx.length / 3) = 10 from by decide]
    rw [claimOverlapGo, if_pos (by norm_num : (10:Nat) ≤ 10)]
    have h0 : List.countP (fun p : Char × Char => p.1 == p.2)
        (((mergeFirstEx.drop (mergeFirstEx.length - 10)).map Char.toLower).zip
          ((mergeSecondEx.take 10).map Char.toLower)) = 0 := by decide
    rw [show claimWindowFrac mergeFirstEx mergeSecondEx 10
        = ((0:Nat) : ℚ) / ((10:Nat) : ℚ) from by simp only [claimWindowFrac]; rw [h0]]
    rw [if_neg (by norm_num)]
    rw [claimOverlapGo, if_neg (by norm_num : ¬ ((10:Nat) ≤ 10 - 10))]
  rw [mergeChunks, claimMergeChunks, if_neg (by simp)]
  simp only [List.foldl_cons, List.foldl_nil]
  rw [hov, hclaim, hs]
  rw [hdrop]
  decide

end TextChunking

namespace Retry

/-- Claim C3 (confirmed): under the default attempt budget of 3, an
operation failing twice retryably and then succeeding yields the success
after exactly 3 invocations; a non-retryably failing operation is invoked
exactly once and its error re-raised; and every error outcome re-raises the
error of the last invocation, which was either the final allowed attempt or
one whose error the predicate rejected. -/
theorem executeWithRetry_spec :
    (∀ (E A : Type) (op : Nat → Except E A) (cond : E → Bool) (e₁ e₂ : E) (a : A),
        op 1 = .error e₁ → cond e₁ = true → op 2 = .error e₂ → cond e₂ = true →
        op 3 = .ok a →
        executeWithRetry op cond defaultMaxAttempts = (.ok a, 3)) ∧
    (∀ (E A : Type) (op : Nat → Except E A) (cond : E → Bool) (e : E),
        op 1 = .error e → cond e = false →
        executeWithRetry op cond defaultMaxAttempts = (.error (some e), 1)) ∧
    (∀ (E A : Type) (op : Nat → Except E A) (cond : E → Bool) (err : Option E) (n : Nat),
        executeWithRetry op cond defaultMaxAttempts = (.error err, n) →
        ∃ e, err = some e ∧ op n = .error e ∧
          (n = defaultMaxAttempts ∨ cond e = false)) := by
  refine ⟨?_, ?_, ?_⟩
  · intro E A op cond e₁ e₂ a h1 hc1 h2 hc2 h3
    simp [executeWithRetry, defaultMaxAttempts, retryGo, h1, hc1, h2, hc2, h3]
  · intro E A op cond e h1 hc1
    simp [executeWithRetry, defaultMaxAttempts, retryGo, h1, hc1]
  · intro E A op cond err n
    simp only [executeWithRetry, defaultMaxAttempts]
    rw [retryGo]
    cases h1 : op 1 with
    | ok a => intro h; simp at h
    | error e1 =>
      dsimp only
      rw [if_neg (by norm_num : ¬ (1 = 3))]
      by_cases hc1 : cond e1 = false
      · rw [if_pos hc1]
        intro h
        simp only [Prod.mk.injEq, Except.error.injEq] at h
        obtain ⟨he, hn⟩ := h
        exact ⟨e1, he.symm, by rw [← hn]; exact h1, Or.inr hc1⟩
      · rw [if_neg hc1]
        rw [retryGo]
        norm_num
        cases h2 : op 2 with
        | ok a => intro h; simp at h
        | error e2 =>
          dsimp only
          by_cases hc2 : cond e2 = false
          · rw [if_pos hc2]
            intro h
            simp only [Prod.mk.injEq, Except.error.injEq] at h
            obtain ⟨he, hn⟩ := h
            exact ⟨e2, he.symm, by rw [← hn]; exact h2, Or.inr hc2⟩
          · rw [if_neg hc2]
            rw [retryGo]
            norm_num
            cases h3 : op 3 with
            | ok a => intro h; simp at h
            | error e3 =>
              dsimp only
              intro h
              simp only [Prod.mk.injEq, Except.error.injEq] at h
              obtain ⟨he, hn⟩ := h
              exact ⟨e3, he.symm, by rw [← hn]; exact h3, Or.inl hn.symm⟩

/-- Witness for `executeWithRetry_spec`: a concrete operation failing twice
retryably then succeeding is invoked 3 times and returns the success, and a
concrete non-retryable failure is invoked once and re-raised. -/
theorem executeWithRetry_spec_witness :
    executeWithRetry (fun n => if n ≤ 2 then Except.error n else Except.ok 7)
        (fun _ => true) defaultMaxAttempts = (.ok 7, 3) ∧
      executeWithRetry (fun _ => (Except.error 5 : Except Nat Nat))
        (fun _ => false) defaultMaxAttempts = (.error (some 5), 1) :=
  ⟨executeWithRetry_spec.1 Nat Nat _ _ 1 2 7 rfl rfl rfl rfl rfl,
    executeWithRetry_spec.2.1 Nat Nat _ _ 5 rfl rfl⟩

end Retry

namespace TranslationService

/-- Claim C8 (confirmed): `isLowAccuracy` holds exactly when the result's
accuracy — the `overallAccuracy` of its quality metrics, copied into
`translationAccuracy` at construction — is strictly below 70. -/
theorem isLowAccuracy_spec :
    (∀ r : TranslationResult, isLowAccuracy r = true ↔ r.translationAccuracy < 70) ∧
    (∀ (a b c d : List Char) (qm : TranslationQualityMetrics),
        isLowAccuracy (mkTranslationResult a b c d qm) = true ↔
          qm.overallAccuracy < 70) := by
  constructor
  · intro r
    simp [isLowAccuracy]
  · intro a b c d qm
    simp [isLowAccuracy, mkTranslationResult]

/-- Counterexample to claim C9 as stated: the empty text is a text, and
`calculateSemanticSimilarity("", "")` is 0, not approximately 30 — the
emptiness guard returns before the identical-input penalty is reached. -/
theorem semanticSimilarity_empty_counterexample :
    ¬ (calculateSemanticSimilarity [] [] = 30) := by
  norm_num [calculateSemanticSimilarity]

/-- Claim C9 (corrected): for every pair of nonempty texts that are
identical up to case — in particular for the identical pair `(x, x)` with
`x` nonempty — the `semanticSimilarity` sub-score is exactly 30, the forced
no-op-translation penalty. -/
theorem calculateSemanticSimilarity_identical (x y : List Char)
    (hx : x ≠ []) (hy : y ≠ []) (hlow : jsToLower x = jsToLower y) :
    calculateSemanticSimilarity x y = 30 := by
  have hxe : x.isEmpty = false :=
    TextChunking.isEmpty_false_of_length_pos (List.length_pos.mpr hx)
  have hye : y.isEmpty = false :=
    TextChunking.isEmpty_false_of_length_pos (List.length_pos.mpr hy)
  rw [calculateSemanticSimilarity, hxe, hye]
  simp only [Bool.or_self, Bool.false_eq_true, if_false]
  rw [if_pos hlow]
  norm_num

/-- Witness for `calculateSemanticSimilarity_identical` at the concrete
identical-up-to-case pair `("a", "A")`. -/
theorem calculateSemanticSimilarity_identical_witness :
    (('a' :: []) : List Char) ≠ [] ∧ (('A' :: []) : List Char) ≠ [] ∧
      jsToLower ('a' :: []) = jsToLower ('A' :: []) ∧
      calculateSemanticSimilarity ('a' :: []) ('A' :: []) = 30 :=
  ⟨by decide, by decide, by decide,
    calculateSemanticSimilarity_identical ('a' :: []) ('A' :: [])
      (by decide) (by decide) (by decide)⟩

end TranslationService

namespace Router

theorem beq_llm_llm : (TranslationMethod.llm == TranslationMethod.llm) = true := rfl

theorem beq_sarvam_llm : (TranslationMethod.sarvam == TranslationMethod.llm) = false := rfl

/-- Claim C4 (confirmed): when the attempted preferred method fails, exactly
one fallback call is made to the alternate family — LLM to Sarvam
unconditionally, Sarvam to LLM only when an adapter is configured, never
cascading further (the trace never exceeds two calls) — and when both fail
the call fails with the fallback's error. -/
theorem translateText_fallback_spec :
    (∀ (R E : Type) (cfg : RouterConfig) (out : ProviderOutcomes R E)
        (text : List Char) (optMethod : Option TranslationMethod) (e : E),
        (jsTrim text).isEmpty = false →
        optMethod.getD cfg.defaultMethod = TranslationMethod.llm →
        cfg.hasLLMAdapter = true → out.llm = .error e →
        translateText cfg out text optMethod
          = (translateWithSarvam out, [TranslationMethod.llm, TranslationMethod.sarvam])) ∧
    (∀ (R E : Type) (cfg : RouterConfig) (out : ProviderOutcomes R E)
        (text : List Char) (optMethod : Option TranslationMethod) (e : E),
        (jsTrim text).isEmpty = false →
        optMethod.getD cfg.defaultMethod = TranslationMethod.sarvam →
        cfg.hasLLMAdapter = true → out.sarvam = .error e →
        translateText cfg out text optMethod
          = (translateWithLLM cfg out, [TranslationMethod.sarvam, TranslationMethod.llm])) ∧
    (∀ (R E : Type) (cfg : RouterConfig) (out : ProviderOutcomes R E)
        (text : List Char) (optMethod : Option TranslationMethod) (e₁ e₂ : E),
        (jsTrim text).isEmpty = false →
        optMethod.getD cfg.defaultMethod = TranslationMethod.llm →
        cfg.hasLLMAdapter = true → out.llm = .error e₁ → out.sarvam = .error e₂ →
        (translateText cfg out text optMethod).1 = .error (.provider e₂)) ∧
    (∀ (R E : Type) (cfg : RouterConfig) (out : ProviderOutcomes R E)
        (text : List Char) (optMethod : Option TranslationMethod),
        (translateText cfg out text optMethod).2.length ≤ 2) := by
  refine ⟨?_, ?_, ?_, ?_⟩
  · intro R E cfg out text optMethod e hne hm ha hllm
    simp [translateText, translateWithLLM, hne, hm, ha, hllm, beq_llm_llm]
  · intro R E cfg out text optMethod e hne hm ha hsar
    simp [translateText, translateWithSarvam, hne, hm, ha, hsar, beq_sarvam_llm]
  · intro R E cfg out text optMethod e₁ e₂ hne hm ha hllm hsar
    simp [translateText, translateWithLLM, translateWithSarvam, hne, hm, ha, hllm, hsar, beq_llm_llm]
  · intro R E cfg out text optMethod
    rw [translateText]
    split
    · simp
    · simp only
      split
      · simp
      · split
        · simp
        · split
          · simp
          · simp

/-- Witness for `translateText_fallback_spec`: a failing preferred LLM call
falls back to a succeeding Sarvam call, and a failing preferred Sarvam call
falls back to a succeeding LLM call. -/
theorem translateText_fallback_spec_witness :
    translateText (⟨true, .llm⟩ : RouterConfig)
        (⟨.error 3, .ok 9⟩ : ProviderOutcomes Nat Nat) ('h' :: []) none
      = (.ok 9, [TranslationMethod.llm, TranslationMethod.sarvam]) ∧
    translateText (⟨true, .sarvam⟩ : RouterConfig)
        (⟨.ok 1, .error 2⟩ : ProviderOutcomes Nat Nat) ('h' :: []) none
      = (.ok 1, [TranslationMethod.sarvam, TranslationMethod.llm]) := by
  constructor
  · rw [translateText_fallback_spec.1 Nat Nat ⟨true, .llm⟩ ⟨.error 3, .ok 9⟩
      ('h' :: []) none 3 (by decide) rfl rfl rfl]
    rfl
  · rw [translateText_fallback_spec.2.1 Nat Nat ⟨true, .sarvam⟩ ⟨.ok 1, .error 2⟩
      ('h' :: []) none 2 (by decide) rfl rfl rfl]
    rfl

/-- Counterexample to claim C5 as stated: with method preference LLM and no
LLM adapter configured, `translateText` does not raise a configuration
error — the preferred-method test `method === LLM && this.llmAdapter` fails,
so the call silently translates with Sarvam and here returns its success. -/
theorem translateText_config_error_counterexample :
    translateText (⟨false, .sarvam⟩ : RouterConfig)
        (⟨.error 0, .ok 42⟩ : ProviderOutcomes Nat Nat) ('h' :: []) (some .llm)
      = (.ok 42, [TranslationMethod.sarvam]) ∧
    (translateText (⟨false, .sarvam⟩ : RouterConfig)
        (⟨.error 0, .ok 42⟩ : ProviderOutcomes Nat Nat) ('h' :: []) (some .llm)).1
      ≠ .error RouterError.llmNotInitialized := by
  constructor
  · rfl
  · show (Except.ok 42 : Except (RouterError Nat) Nat) ≠ .error RouterError.llmNotInitialized
    simp

/-- Claim C5 (corrected): for every request whose preferred method is LLM
while no LLM adapter is configured, `translateText` silently translates with
the Sarvam method — one Sarvam call whose outcome (success or error) is the
result, never a configuration error. -/
theorem translateText_no_adapter_uses_sarvam (R E : Type) (cfg : RouterConfig)
    (out : ProviderOutcomes R E) (text : List Char)
    (optMethod : Option TranslationMethod)
    (hne : (jsTrim text).isEmpty = false)
    (hm : optMethod.getD cfg.defaultMethod = TranslationMethod.llm)
    (ha : cfg.hasLLMAdapter = false) :
    translateText cfg out text optMethod
      = (translateWithSarvam out, [TranslationMethod.sarvam]) := by
  rw [translateText]
  rw [if_neg (by rw [hne]; exact Bool.false_ne_true)]
  simp only [hm, ha, Bool.and_false, if_false]
  rw [translateWithSarvam]
  cases hs : out.sarvam with
  | ok r => simp [translateWithSarvam, hs]
  | error e => simp [translateWithSarvam, hs, ha]

/-- Witness for `translateText_no_adapter_uses_sarvam` at the inputs of the
counterexample. -/
theorem translateText_no_adapter_uses_sarvam_witness :
    translateText (⟨false, .sarvam⟩ : RouterConfig)
        (⟨.error 0, .ok 42⟩ : ProviderOutcomes Nat Nat) ('h' :: []) (some .llm)
      = (translateWithSarvam (⟨.error 0, .ok 42⟩ : ProviderOutcomes Nat Nat),
          [TranslationMethod.sarvam]) :=
  translateText_no_adapter_uses_sarvam Nat Nat _ _ ('h' :: []) (some .llm)
    (by decide) rfl rfl

end Router

namespace JobManager

theorem mapGet_mapSet_self (m : List (String × ProcessingJob)) (id : String)
    (job : ProcessingJob) : mapGet (mapSet m id job) id = some job := by
  induction m with
  | nil => simp [mapSet, mapGet, List.find?]
  | cons kv rest ih =>
    obtain ⟨k, v⟩ := kv
    by_cases h : k == id
    · simp [mapSet, h, mapGet, List.find?]
    · simp only [mapSet, h, Bool.false_eq_true, if_false]
      simpa [mapGet, List.find?, h] using ih

theorem mapGet_mapSet_ne (m : List (String × ProcessingJob)) (k i : String)
    (job : ProcessingJob) (h : k ≠ i) :
    mapGet (mapSet m k job) i = mapGet m i := by
  have hki : (k == i) = false := beq_eq_false_iff_ne.mpr h
  induction m with
  | nil => simp [mapSet, mapGet, List.find?, hki]
  | cons kv rest ih =>
    obtain ⟨k', v⟩ := kv
    by_cases h' : k' == k
    · have hk'i : (k' == i) = false := by
        have : k' = k := by simpa using h'
        simpa [this] using hki
      simp [mapSet, h', mapGet, List.find?, hki, hk'i]
    · simp only [mapSet, h', Bool.false_eq_true, if_false]
      by_cases h'' : k' == i
      · simp [mapGet, List.find?, h'']
      · simpa [mapGet, List.find?, h''] using ih

theorem length_filter_mapSet_le (m : List (String × ProcessingJob)) (id : String)
    (job : ProcessingJob) (h : job.status ≠ .processing) :
    ((mapSet m id job).filter (fun kv => kv.2.status == JobStatus.processing)).length
      ≤ (m.filter (fun kv => kv.2.status == JobStatus.processing)).length := by
  have hj : (job.status == JobStatus.processing) = false := beq_eq_false_iff_ne.mpr h
  induction m with
  | nil => simp [mapSet, hj]
  | cons kv rest ih =>
    obtain ⟨k, v⟩ := kv
    by_cases hk : k == id
    · simp only [mapSet, hk, if_true, List.filter_cons, hj]
      by_cases hv : (v.status == JobStatus.processing)
      · simp [hv]
      · simp [hv]
    · simp only [mapSet, hk, Bool.false_eq_true, if_false, List.filter_cons]
      by_cases hv : (v.status == JobStatus.processing)
      · simpa [hv] using ih
      · simpa [hv] using ih

theorem length_filter_mapSet_le_succ (m : List (String × ProcessingJob)) (id : String)
    (job : ProcessingJob) :
    ((mapSet m id job).filter (fun kv => kv.2.status == JobStatus.processing)).length
      ≤ (m.filter (fun kv => kv.2.status == JobStatus.processing)).length + 1 := by
  induction m with
  | nil =>
    by_cases hj : (job.status == JobStatus.processing)
    · simp [mapSet, hj]
    · simp [mapSet, hj]
  | cons kv rest ih =>
    obtain ⟨k, v⟩ := kv
    by_cases hk : k == id
    · simp only [mapSet, hk, if_true, List.filter_cons]
      by_cases hj : (job.status == JobStatus.processing) <;>
        by_cases hv : (v.status == JobStatus.processing) <;>
          simp [hj, hv] <;> omega
    · simp only [mapSet, hk, Bool.false_eq_true, if_false, List.filter_cons]
      by_cases hv : (v.status == JobStatus.processing)
      · simpa [hv] using ih
      · simpa [hv] using ih

theorem processingCount_createJob_le (st : JMState) (d : JobPatch) (g : String)
    (n : Nat) (hb : d.status ≠ some .processing) :
    processingCount (createJob st d g n).2 ≤ processingCount st := by
  have hstat : (d.status.getD JobStatus.pending) ≠ .processing := by
    cases hs : d.status with
    | none => simp
    | some s =>
      simp only [Option.getD_some]
      intro h
      exact hb (by rw [hs, h])
  exact length_filter_mapSet_le st.jobs _ _ hstat

theorem processingCount_processNextJob_le (st : JMState) (n : Nat)
    (h : processingCount st ≤ maxConcurrentJobs) :
    processingCount (processNextJob st n) ≤ maxConcurrentJobs := by
  rw [processNextJob]
  split
  · exact h
  · rename_i hgate
    push_neg at hgate
    obtain ⟨hlt, hne⟩ := hgate
    split
    · exact h
    · rename_i jobId restQueue heq
      dsimp only
      split
      · exact h
      · cases hget : mapGet st.jobs jobId with
        | none => exact h
        | some job =>
          dsimp only
          by_cases hstat : job.status ≠ JobStatus.pending
          · rw [if_pos hstat]
            exact h
          · rw [if_neg hstat]
            rw [updateJob]
            dsimp only
            rw [hget]
            dsimp only [processingCount]
            calc ((mapSet st.jobs jobId _).filter
                  (fun kv => kv.2.status == JobStatus.processing)).length
                ≤ (st.jobs.filter (fun kv => kv.2.status == JobStatus.processing)).length + 1 :=
                  length_filter_mapSet_le_succ _ _ _
              _ ≤ maxConcurrentJobs := by omega

theorem processingCount_cancelJob_le (st : JMState) (jobId : String) (n : Nat)
    (h : processingCount st ≤ maxConcurrentJobs) :
    processingCount (cancelJob st jobId n).2 ≤ maxConcurrentJobs := by
  rw [cancelJob]
  cases hget : mapGet st.jobs jobId with
  | none => exact h
  | some job =>
    simp only
    split
    · rw [updateJob]
      simp only [hget]
      refine le_trans (le_trans (length_filter_mapSet_le st.jobs jobId _ ?_) le_rfl) h
      simp [applyPatch]
    · exact h

theorem processingCount_cleanupOldJobs_le (st : JMState) (n : Nat)
    (h : processingCount st ≤ maxConcurrentJobs) :
    processingCount (cleanupOldJobs st n) ≤ maxConcurrentJobs := by
  refine le_trans ?_ h
  unfold cleanupOldJobs processingCount
  exact ((st.jobs.filter_sublist.filter _).length_le)

theorem processingCount_shutdown (st : JMState) (n : Nat) :
    processingCount (shutdown st n) = 0 := by
  unfold shutdown processingCount
  simp only
  induction st.jobs with
  | nil => rfl
  | cons kv rest ih =>
    obtain ⟨k, v⟩ := kv
    simp only [List.map_cons, List.filter_cons]
    by_cases hv : v.status = .pending ∨ v.status = .processing
    · rw [if_pos hv]
      simpa using ih
    · rw [if_neg hv]
      have hne : (v.status == JobStatus.processing) = false :=
        beq_eq_false_iff_ne.mpr (fun hh => hv (Or.inr hh))
      simpa [hne] using ih

theorem processingCount_applyOp_le (st : JMState) (op : JMOp)
    (hb : benignOp op) (h : processingCount st ≤ maxConcurrentJobs) :
    processingCount (applyOp st op) ≤ maxConcurrentJobs := by
  cases op with
  | create d g n => exact le_trans (processingCount_createJob_le st d g n hb) h
  | processNext n => exact processingCount_processNextJob_le st n h
  | cancel jobId n => exact processingCount_cancelJob_le st jobId n h
  | cleanup n => exact processingCount_cleanupOldJobs_le st n h
  | shutdown n => simp [applyOp, processingCount_shutdown]

theorem runOps_processingCount_le (ops : List JMOp) :
    ∀ st : JMState, processingCount st ≤ maxConcurrentJobs →
      (∀ op ∈ ops, benignOp op) →
      processingCount (runOps st ops) ≤ maxConcurrentJobs := by
  induction ops with
  | nil => intro st h _; exact h
  | cons op rest ih =>
    intro st h hb
    rw [runOps, List.foldl_cons]
    exact ih (applyOp st op)
      (processingCount_applyOp_le st op (hb op (by simp)) h)
      (fun o ho => hb o (by simp [ho]))

theorem processNextJob_admits_head (st : JMState) (now : Nat) (jobId : String)
    (h : statusOf (processNextJob st now) jobId = some .processing) :
    statusOf st jobId = some .processing ∨
      st.processingQueue.head? = some jobId := by
  rw [processNextJob] at h
  split at h
  · exact Or.inl h
  · split at h
    · exact Or.inl h
    · rename_i hd tl heq
      dsimp only at h
      split at h
      · exact Or.inl h
      · split at h
        · exact Or.inl h
        · rename_i job hjob
          split at h
          · exact Or.inl h
          · rw [updateJob] at h
            dsimp only at h
            rw [hjob] at h
            dsimp only at h
            by_cases hid : hd = jobId
            · right
              rw [heq, hid]
              rfl
            · left
              simp only [statusOf] at h ⊢
              rwa [mapGet_mapSet_ne st.jobs hd jobId _ hid] at h

theorem processNextJob_queue_pop (st : JMState) (now : Nat) :
    (processNextJob st now).processingQueue = st.processingQueue ∨
      (processNextJob st now).processingQueue = st.processingQueue.tail := by
  rw [processNextJob]
  split
  · exact Or.inl rfl
  · split
    · exact Or.inl rfl
    · rename_i hd tl heq
      rw [heq]
      dsimp only
      split
      · exact Or.inr rfl
      · split
        · exact Or.inr rfl
        · rename_i job hjob
          split
          · exact Or.inr rfl
          · rw [updateJob]
            dsimp only
            rw [hjob]
            exact Or.inr rfl

/-- Counterexample to claim C7 as stated: starting from the empty registry,
six `createJob` operations put six jobs in Processing status, exceeding
`maxConcurrentJobs = 5` — the `...jobData` spread in `createJob` overrides
the Pending default with the caller's status. -/
theorem jobGate_counterexample :
    ¬ (processingCount (runOps initState gateBreakingOps) ≤ maxConcurrentJobs) := by
  decide

/-- Claim C7 (corrected): starting from an empty registry, under every
sequence of `JobManager` operations whose `createJob` inputs do not
themselves carry a Processing status, the number of Processing jobs never
exceeds `maxConcurrentJobs = 5`; and `processNextJob` admits queued Pending
jobs in FIFO order: any job it newly moves to Processing is the head of the
queue, and the queue is only ever left unchanged or popped at the head. -/
theorem jobGate_spec :
    (∀ ops : List JMOp, (∀ op ∈ ops, benignOp op) →
        processingCount (runOps initState ops) ≤ maxConcurrentJobs) ∧
    (∀ (st : JMState) (now : Nat) (jobId : String),
        statusOf (processNextJob st now) jobId = some .processing →
        statusOf st jobId = some .processing ∨
          st.processingQueue.head? = some jobId) ∧
    (∀ (st : JMState) (now : Nat),
        (processNextJob st now).processingQueue = st.processingQueue ∨
          (processNextJob st now).processingQueue = st.processingQueue.tail) := by
  refine ⟨?_, processNextJob_admits_head, processNextJob_queue_pop⟩
  intro ops hb
  exact runOps_processingCount_le ops initState (by simp [processingCount, initState]) hb

/-- Witness for `jobGate_spec`: the bound holds after two benign creations
and one admission, and the admission taken in `witnessState` is the queue
head. -/
theorem jobGate_spec_witness :
    processingCount (runOps initState benignWitnessOps) ≤ maxConcurrentJobs ∧
      (statusOf witnessState "p" = some .processing ∨
        witnessState.processingQueue.head? = some "p") := by
  constructor
  · refine jobGate_spec.1 benignWitnessOps ?_
    intro op hop
    simp only [benignWitnessOps, List.mem_cons, List.not_mem_nil, or_false] at hop
    rcases hop with rfl | rfl | rfl
    · simp [benignOp]
    · simp [benignOp]
    · trivial
  · exact jobGate_spec.2.1 witnessState 7 "p" (by decide)

/-- Claim C6 (confirmed): for every job in the registry, `cancelJob` on a
Pending or Processing job returns `true`, stores the job with Failed status
and the cancellation message, and removes its id from the processing queue
(the first occurrence is spliced out, so under unique queue entries the id
is gone); on a Completed job it returns `false` and leaves the whole state
unchanged. -/
theorem cancelJob_spec :
    ∀ (st : JMState) (jobId : String) (job : ProcessingJob) (now : Nat),
      mapGet st.jobs jobId = some job →
      ((job.status = .pending ∨ job.status = .processing) →
        (cancelJob st jobId now).1 = true ∧
        (∃ j', mapGet (cancelJob st jobId now).2.jobs jobId = some j' ∧
          j'.status = .failed ∧ j'.error = some "Job cancelled by user") ∧
        (cancelJob st jobId now).2.processingQueue = st.processingQueue.erase jobId ∧
        (st.processingQueue.count jobId ≤ 1 →
          jobId ∉ (cancelJob st jobId now).2.processingQueue)) ∧
      (job.status = .completed → cancelJob st jobId now = (false, st)) := by
  intro st jobId job now hget
  constructor
  · intro hps
    simp only [cancelJob, hget, if_pos hps, updateJob]
    refine ⟨by trivial,
      ⟨applyPatch job
          { status := some JobStatus.failed, error := some "Job cancelled by user" } now,
        mapGet_mapSet_self st.jobs jobId _, by simp [applyPatch], by simp [applyPatch]⟩,
      by trivial, ?_⟩
    · intro hc
      by_cases hmem : jobId ∈ st.processingQueue
      · have hcount : (st.processingQueue.erase jobId).count jobId = 0 := by
          rw [List.count_erase_self]
          have : 1 ≤ st.processingQueue.count jobId := List.one_le_count_iff.mpr hmem
          omega
        simpa using List.count_eq_zero.mp hcount
      · rw [List.erase_of_not_mem hmem]
        exact hmem
  · intro hcomp
    simp only [cancelJob, hget]
    rw [if_neg]
    rintro (h | h) <;> rw [hcomp] at h <;> exact JobStatus.noConfusion h

/-- Witness for `cancelJob_spec` at `witnessState`: cancelling the queued
Pending job succeeds and cancelling the Completed job is refused with the
state unchanged. -/
theorem cancelJob_spec_witness :
    (cancelJob witnessState "p" 9).1 = true ∧
      cancelJob witnessState "c" 9 = (false, witnessState) :=
  ⟨((cancelJob_spec witnessState "p" witnessPendingJob 9 rfl).1 (Or.inl rfl)).1,
    (cancelJob_spec witnessState "c" witnessCompletedJob 9 rfl).2 rfl⟩

end JobManager

end VideoSpeak
